import Mathlib

/-!
Verification development for the resilience / identifier-resolution layer of
the `productive-cli` repository.

The development shallowly embeds, directly from the TypeScript sources:

* the resource resolver (`src/packages/productive-cli/src/utils/resource-resolver.ts`):
  pattern detection, the per-type lookup strategies, the resolve cache
  discipline, and the batch filter resolution;
* the file-backed TTL response cache (`FileCache` in `src/src/config.ts`,
  i.e. the `cache.ts` module): TTL defaulting, get/set/invalidate/clear/stats
  over an explicit file-system world in which every primitive may fail, and
  the post-write cleanup sweep as a pure function of the directory snapshot;
* the sliding-window rate limiter, which is described by the specification
  but whose implementation file is not part of the repository snapshot; it is
  modelled from the spec as an admission-trace relation.

JavaScript machine details are embedded as follows: strings are Lean
`String`s (`Char` lists), JS `\d` is `Char.isDigit`, timestamps and sizes are
`Nat` (all quantities involved are non-negative and well below 2^53, so JS
number arithmetic is exact on them), `x || y` on strings uses `""` as the
only falsy value, and fallible I/O returns `Except Unit`.
-/

namespace ProductiveCli

/-! ## Character/string utilities shared by the embeddings -/

/-- Nonempty all-digit character list: the JS regex fragment `\d+` anchored on
both sides (`\d` matches exactly the ASCII digits). -/
def digits1 (l : List Char) : Bool :=
  !l.isEmpty && l.all Char.isDigit

/-- JS `String.prototype.startsWith hay.startsWith(needle)`, on character
lists: `listStartsWith hay needle` is true iff `needle` is a prefix of
`hay`. -/
def listStartsWith : List Char → List Char → Bool
  | _, [] => true
  | [], _ :: _ => false
  | a :: hay, b :: needle => a == b && listStartsWith hay needle

/-- JS `String.prototype.includes`: `containsSub needle hay` is true iff
`needle` occurs contiguously inside `hay` (the empty needle always occurs). -/
def containsSub (needle : List Char) : List Char → Bool
  | [] => listStartsWith [] needle
  | c :: rest => listStartsWith (c :: rest) needle || containsSub needle rest

/-- The JS regex class `\s` (whitespace), restricted to the code points the
sources can meet; used by the email pattern and by `String.prototype.trim`. -/
def jsWhitespaceChar (c : Char) : Bool :=
  c == ' ' || c == '\t' || c == '\n' || c == '\r' ||
  c == '\x0b' || c == '\x0c' || c == ' ' || c == '﻿'

/-- JS `String.prototype.trim`: strip leading and trailing whitespace. -/
def jsTrim (s : String) : String :=
  ⟨((s.data.dropWhile jsWhitespaceChar).reverse.dropWhile jsWhitespaceChar).reverse⟩

/-- JS `x || y` for strings: `""` is the only falsy string. -/
def strFallback (x y : String) : String :=
  if x == "" then y else x

/-- JS `String.prototype.toLowerCase`, ASCII fragment (the only case-carrying
characters produced by the embedded code paths are ASCII). -/
def lowerStr (s : String) : String :=
  ⟨s.data.map Char.toLower⟩

/-- JS `String.prototype.toUpperCase`, ASCII fragment. -/
def upperStr (s : String) : String :=
  ⟨s.data.map Char.toUpper⟩

/-! ## Resource resolver: pattern detection

Source: `resource-resolver.ts`, constants `EMAIL_PATTERN`,
`PROJECT_NUMBER_PATTERN`, `DEAL_NUMBER_PATTERN`, `NUMERIC_ID_PATTERN` and
functions `detectResourceType`, `isNumericId`, `needsResolution`. -/

/-- `NUMERIC_ID_PATTERN = /^\d+$/` on the character list. -/
def numericChars (l : List Char) : Bool := digits1 l

/-- `EMAIL_PATTERN = /^[^\s@]+@[^\s@]+\.[^\s@]+$/` on the character list.
A list matches iff it splits as `a ++ '@' ++ b ++ '.' ++ c` with `a`, `b`,
`c` nonempty and free of whitespace and `@`.  Equivalently: no whitespace
anywhere, exactly one `@`, a nonempty part before the `@`, and after the `@`
a dot that is neither the first nor the last character. -/
def emailChars (l : List Char) : Bool :=
  l.all (fun c => !jsWhitespaceChar c) &&
  l.count '@' == 1 &&
  !(l.takeWhile (fun c => c != '@')).isEmpty &&
  (((l.dropWhile (fun c => c != '@')).drop 1).drop 1).dropLast.contains '.'

/-- `PROJECT_NUMBER_PATTERN = /^(PRJ|P)-\d+$/i` on the character list: either
`P-` or `PRJ-` (case-insensitively) followed by one or more digits. -/
def projectNumberChars (l : List Char) : Bool :=
  match l with
  | c1 :: '-' :: rest => (c1 == 'P' || c1 == 'p') && digits1 rest
  | c1 :: c2 :: c3 :: '-' :: rest =>
      (c1 == 'P' || c1 == 'p') && (c2 == 'R' || c2 == 'r') &&
      (c3 == 'J' || c3 == 'j') && digits1 rest
  | _ => false

/-- `DEAL_NUMBER_PATTERN = /^(D|DEAL)-\d+$/i` on the character list: either
`D-` or `DEAL-` (case-insensitively) followed by one or more digits. -/
def dealNumberChars (l : List Char) : Bool :=
  match l with
  | c1 :: '-' :: rest => (c1 == 'D' || c1 == 'd') && digits1 rest
  | c1 :: c2 :: c3 :: c4 :: '-' :: rest =>
      (c1 == 'D' || c1 == 'd') && (c2 == 'E' || c2 == 'e') &&
      (c3 == 'A' || c3 == 'a') && (c4 == 'L' || c4 == 'l') && digits1 rest
  | _ => false

/-- `isNumericId(value)`: test against `NUMERIC_ID_PATTERN`. -/
def isNumericId (value : String) : Bool := numericChars value.data

/-- `needsResolution(value)`: not a numeric ID. -/
def needsResolution (value : String) : Bool := !isNumericId value

/-- `ResolvableResourceType`. -/
inductive RType where
  | person
  | project
  | company
  | deal
  | service
deriving DecidableEq, Repr

/-- The string name of a resource type, as it appears in cache keys and
error messages. -/
def rtypeName : RType → String
  | .person => "person"
  | .project => "project"
  | .company => "company"
  | .deal => "deal"
  | .service => "service"

/-- Confidence levels of `DetectionResult`. -/
inductive Confidence where
  | high
  | medium
  | low
deriving DecidableEq, Repr

/-- `DetectionResult` (the `type` field is named `rtype`, and `pattern` keeps
its source name). -/
structure DetectionResult where
  rtype : RType
  confidence : Confidence
  pattern : String
deriving DecidableEq, Repr

/-- `detectResourceType(query)`: numeric queries are never detected; then the
email, project-number and deal-number patterns are tried in order; anything
else yields no detection. -/
def detectResourceType (query : String) : Option DetectionResult :=
  if numericChars query.data then
    none
  else if emailChars query.data then
    some { rtype := .person, confidence := .high, pattern := "email" }
  else if projectNumberChars query.data then
    some { rtype := .project, confidence := .high, pattern := "project_number" }
  else if dealNumberChars query.data then
    some { rtype := .deal, confidence := .high, pattern := "deal_number" }
  else
    none

/-! ## Resource resolver: data model and API surface

The API layer (`ProductiveApi`) is external to the resolver; it is embedded
as an oracle mapping each request the resolver can issue to the list of
resources the server returns.  Wire resources carry the attributes the
resolver reads (`name`, `first_name`, `last_name`); absent attributes are the
empty string, which is exactly how the source's `|| ''` fallbacks treat
them. -/

/-- `ResolveResult` (the `type` field is named `rtype`). -/
structure ResolveResult where
  id : String
  rtype : RType
  label : String
  query : String
  exact : Bool
deriving DecidableEq, Repr

/-- `ResolveOptions` (the `type` field is named `rtype`; the unused `cache`
handle is omitted; an absent/empty `orgId` is `none`, matching the falsiness
test `if (orgId)`). -/
structure ResolveOptions where
  rtype : Option RType := none
  projectId : Option String := none
  first : Bool := false
  orgId : Option String := none

/-- `ResolveError` (the `type` field is named `rtype`); `toJSON` additionally
reports `name = "ResolveError"`, which is a constant. -/
structure ResolveError where
  message : String
  query : String
  rtype : Option RType := none
  suggestions : List ResolveResult := []
deriving DecidableEq, Repr

/-- The requests the resolver can issue to the API layer, with the `perPage`
each call site passes. -/
inductive ApiReq where
  | peopleByEmail (email : String) (perPage : Nat)
  | peopleByQuery (q : String) (perPage : Nat)
  | projectsByNumber (n : String) (perPage : Nat)
  | projectsByQuery (q : String) (perPage : Nat)
  | companiesByQuery (q : String) (perPage : Nat)
  | dealsByNumber (n : String) (perPage : Nat)
  | dealsByQuery (q : String) (perPage : Nat)
  | services (projectId : Option String) (perPage : Nat)
deriving DecidableEq, Repr

/-- A wire resource `{id, attributes}`; only the attributes the resolver
reads are kept, absent attributes being `""`. -/
structure ApiResource where
  id : String
  name : String := ""
  firstName : String := ""
  lastName : String := ""
deriving DecidableEq, Repr

/-- The API oracle: what the server answers to each request. -/
def ApiOracle : Type := ApiReq → List ApiResource

/-! ## Resource resolver: per-type lookup strategies

Each strategy returns its results together with the list of API requests it
dispatched, in order. -/

/-- `resolvePersonByEmail`: exact lookup with `filter: { email }, perPage: 1`;
label is the trimmed full name, falling back to the email. -/
def resolvePersonByEmail (api : ApiOracle) (email : String) :
    Option ResolveResult × List ApiReq :=
  let req := ApiReq.peopleByEmail email 1
  match api req with
  | [] => (none, [req])
  | person :: _ =>
      (some { id := person.id, rtype := .person,
              label := strFallback (jsTrim (person.firstName ++ " " ++ person.lastName)) email,
              query := email, exact := true }, [req])

/-- `resolvePersonByName`: fuzzy search with `filter: { query }, perPage: 10`;
every hit is returned non-exact. -/
def resolvePersonByName (api : ApiOracle) (name : String) :
    List ResolveResult × List ApiReq :=
  let req := ApiReq.peopleByQuery name 10
  ((api req).map (fun person =>
    { id := person.id, rtype := .person,
      label := jsTrim (person.firstName ++ " " ++ person.lastName),
      query := name, exact := false }), [req])

/-- The prefix normalization in `resolveProjectByNumber`: uppercase, then
replace a leading "P-" by "PRJ-". -/
def normalizeProjectNumber (projectNumber : String) : String :=
  let u := upperStr projectNumber
  if listStartsWith u.data ['P', '-'] then "PRJ-" ++ ⟨u.data.drop 2⟩ else u

/-- `resolveProjectByNumber`: exact lookup by normalized project number,
retried with the unnormalized string on a miss. -/
def resolveProjectByNumber (api : ApiOracle) (projectNumber : String) :
    Option ResolveResult × List ApiReq :=
  let normalized := normalizeProjectNumber projectNumber
  let req := ApiReq.projectsByNumber normalized 1
  match api req with
  | [] =>
      let altReq := ApiReq.projectsByNumber projectNumber 1
      match api altReq with
      | [] => (none, [req, altReq])
      | project :: _ =>
          (some { id := project.id, rtype := .project,
                  label := strFallback project.name projectNumber,
                  query := projectNumber, exact := true }, [req, altReq])
  | project :: _ =>
      (some { id := project.id, rtype := .project,
              label := strFallback project.name projectNumber,
              query := projectNumber, exact := true }, [req])

/-- `resolveProjectByName`: fuzzy search, `perPage: 10`, all hits
non-exact. -/
def resolveProjectByName (api : ApiOracle) (name : String) :
    List ResolveResult × List ApiReq :=
  let req := ApiReq.projectsByQuery name 10
  ((api req).map (fun project =>
    { id := project.id, rtype := .project, label := project.name,
      query := name, exact := false }), [req])

/-- `resolveCompanyByName`: fuzzy search, `perPage: 10`, all hits
non-exact. -/
def resolveCompanyByName (api : ApiOracle) (name : String) :
    List ResolveResult × List ApiReq :=
  let req := ApiReq.companiesByQuery name 10
  ((api req).map (fun company =>
    { id := company.id, rtype := .company, label := company.name,
      query := name, exact := false }), [req])

/-- The prefix normalization in `resolveDealByNumber`: uppercase, then
replace a leading "DEAL-" by "D-". -/
def normalizeDealNumber (dealNumber : String) : String :=
  let u := upperStr dealNumber
  if listStartsWith u.data ['D', 'E', 'A', 'L', '-'] then "D-" ++ ⟨u.data.drop 5⟩ else u

/-- `resolveDealByNumber`: exact lookup by normalized deal number, retried
with the unnormalized string on a miss. -/
def resolveDealByNumber (api : ApiOracle) (dealNumber : String) :
    Option ResolveResult × List ApiReq :=
  let normalized := normalizeDealNumber dealNumber
  let req := ApiReq.dealsByNumber normalized 1
  match api req with
  | [] =>
      let altReq := ApiReq.dealsByNumber dealNumber 1
      match api altReq with
      | [] => (none, [req, altReq])
      | deal :: _ =>
          (some { id := deal.id, rtype := .deal,
                  label := strFallback deal.name dealNumber,
                  query := dealNumber, exact := true }, [req, altReq])
  | deal :: _ =>
      (some { id := deal.id, rtype := .deal,
              label := strFallback deal.name dealNumber,
              query := dealNumber, exact := true }, [req])

/-- `resolveDealByName`: fuzzy search, `perPage: 10`, all hits non-exact. -/
def resolveDealByName (api : ApiOracle) (name : String) :
    List ResolveResult × List ApiReq :=
  let req := ApiReq.dealsByQuery name 10
  ((api req).map (fun deal =>
    { id := deal.id, rtype := .deal, label := deal.name,
      query := name, exact := false }), [req])

/-- `resolveServiceByName`: fetch up to 200 services in the optional project
scope and filter client-side by case-insensitive substring; `exact` iff full
case-insensitive equality. -/
def resolveServiceByName (api : ApiOracle) (name : String)
    (projectId : Option String) : List ResolveResult × List ApiReq :=
  let req := ApiReq.services projectId 200
  let nameLower := lowerStr name
  let matched := (api req).filter (fun service =>
    containsSub nameLower.data (lowerStr service.name).data)
  (matched.map (fun service =>
    { id := service.id, rtype := .service, label := service.name,
      query := name, exact := lowerStr service.name == nameLower }), [req])

/-! ## Resource resolver: cache plumbing

The resolver's cache is the per-organization sqlite cache; its `cacheGet` /
`cacheSet` operations live outside the repository snapshot and are embedded
as oracles which may fail (`Except Unit`), so that the `try`/`catch` blocks
of `getCachedResolve` / `setCachedResolve` are represented faithfully. -/

/-- A read oracle for the sqlite cache: `cacheGet` may return a hit, a miss,
or throw. -/
def SqGet : Type := String → Except Unit (Option ResolveResult)

/-- A write oracle for the sqlite cache: `cacheSet key value ttl` may succeed
or throw. -/
def SqSet : Type := String → ResolveResult → Nat → Except Unit Unit

/-- A performed cache write: key, value and TTL in milliseconds. -/
def CacheWrite : Type := String × ResolveResult × Nat

/-- `getResolveCacheKey(orgId, type, query)`. -/
def getResolveCacheKey (orgId : String) (t : RType) (query : String) : String :=
  "resolve:" ++ orgId ++ ":" ++ rtypeName t ++ ":" ++ lowerStr query

/-- `CACHE_TTL.exact`: 24 hours in milliseconds. -/
def CACHE_TTL_exact : Nat := 24 * 60 * 60 * 1000

/-- `CACHE_TTL.fuzzy`: 1 hour in milliseconds. -/
def CACHE_TTL_fuzzy : Nat := 60 * 60 * 1000

/-- `getCachedResolve`: read the cache under the resolve key; any failure is
swallowed and degrades to a miss. -/
def getCachedResolve (sqGet : SqGet) (orgId : String) (t : RType)
    (query : String) : Option ResolveResult :=
  match sqGet (getResolveCacheKey orgId t query) with
  | .ok r => r
  | .error _ => none

/-- `setCachedResolve`: write the result under the key derived from its own
`type` and `query`, with the exact/fuzzy TTL; any failure is swallowed, in
which case no write happens.  Returns the performed write, if any. -/
def setCachedResolve (sqSet : SqSet) (orgId : String)
    (result : ResolveResult) : Option CacheWrite :=
  let key := getResolveCacheKey orgId result.rtype result.query
  let ttl := if result.exact then CACHE_TTL_exact else CACHE_TTL_fuzzy
  match sqSet key result ttl with
  | .ok _ => some (key, result, ttl)
  | .error _ => none

/-! ## Resource resolver: `resolve` and the filter helpers -/

/-- The resource type used for the pre-dispatch cache probe:
`type || detectResourceType(query)?.type`. -/
def resolveTypeForCache (query : String) (opts : ResolveOptions) : Option RType :=
  match opts.rtype with
  | some t => some t
  | none => (detectResourceType query).map (fun d => d.rtype)

/-- The "try cache first" block of `resolve`: only runs when an `orgId` is
supplied and a resource type can be determined. -/
def resolveCacheHit (sqGet : SqGet) (query : String) (opts : ResolveOptions) :
    Option ResolveResult :=
  match opts.orgId with
  | none => none
  | some orgId =>
      match resolveTypeForCache query opts with
      | none => none
      | some rt => getCachedResolve sqGet orgId rt query

/-- The "determine resource type" block of `resolve`: the explicit type wins
(with no pattern); otherwise detection supplies type and pattern; otherwise a
`ResolveError` without a type is thrown. -/
def determineType (query : String) (opts : ResolveOptions) :
    Except ResolveError (RType × Option String) :=
  match opts.rtype with
  | some t => .ok (t, none)
  | none =>
      match detectResourceType query with
      | some d => .ok (d.rtype, some d.pattern)
      | none =>
          .error { message := "Cannot determine resource type for \"" ++ query ++
                     "\". Use --type to specify.",
                   query := query, rtype := none }

/-- The `switch (resourceType)` dispatch of `resolve`: run the strategy for
the determined type, also re-testing the patterns when no detection pattern
was recorded (the explicit-type path). -/
def runStrategy (api : ApiOracle) (query : String) (rt : RType)
    (pat : Option String) (projectId : Option String) :
    List ResolveResult × List ApiReq :=
  match rt with
  | .person =>
      if pat == some "email" || emailChars query.data then
        match resolvePersonByEmail api query with
        | (some r, log) => ([r], log)
        | (none, log) => ([], log)
      else resolvePersonByName api query
  | .project =>
      if pat == some "project_number" || projectNumberChars query.data then
        match resolveProjectByNumber api query with
        | (some r, log) => ([r], log)
        | (none, log) => ([], log)
      else resolveProjectByName api query
  | .company => resolveCompanyByName api query
  | .deal =>
      if pat == some "deal_number" || dealNumberChars query.data then
        match resolveDealByNumber api query with
        | (some r, log) => ([r], log)
        | (none, log) => ([], log)
      else resolveDealByName api query
  | .service => resolveServiceByName api query projectId

/-- The "cache exact matches or single results" block of `resolve`:
`if (orgId && results.length === 1) await setCachedResolve(orgId, results[0])`,
returning the performed writes. -/
def resolveWrites (sqSet : SqSet) (orgId? : Option String)
    (results : List ResolveResult) : List CacheWrite :=
  match orgId?, results with
  | some orgId, [r] => (setCachedResolve sqSet orgId r).toList
  | _, _ => []

/-- `resolve(api, query, options)`.  The returned triple is the outcome
(`ok` results or a thrown `ResolveError`), the API requests dispatched, and
the cache writes performed. -/
def resolve (api : ApiOracle) (sqGet : SqGet) (sqSet : SqSet)
    (query : String) (opts : ResolveOptions) :
    Except ResolveError (List ResolveResult) × List ApiReq × List CacheWrite :=
  if isNumericId query then
    (.ok [{ id := query, rtype := opts.rtype.getD .project, label := query,
            query := query, exact := true }], [], [])
  else
    match resolveCacheHit sqGet query opts with
    | some cached => (.ok [cached], [], [])
    | none =>
        match determineType query opts with
        | .error e => (.error e, [], [])
        | .ok (rt, pat) =>
            match (runStrategy api query rt pat opts.projectId).1 with
            | [] =>
                (.error { message := "No " ++ rtypeName rt ++ " found matching \"" ++
                            query ++ "\"",
                          query := query, rtype := some rt },
                 (runStrategy api query rt pat opts.projectId).2, [])
            | r0 :: rest =>
                if opts.first && decide ((r0 :: rest).length > 1) then
                  (.ok [r0], (runStrategy api query rt pat opts.projectId).2,
                   resolveWrites sqSet opts.orgId (r0 :: rest))
                else
                  (.ok (r0 :: rest), (runStrategy api query rt pat opts.projectId).2,
                   resolveWrites sqSet opts.orgId (r0 :: rest))

/-- `resolveFilterValue(api, value, type, options)`: numeric values pass
through; otherwise resolve with the explicit type and `first: true` and
return the first match's id (the `results.length === 0` re-check is dead but
embedded faithfully via the inner match). -/
def resolveFilterValue (api : ApiOracle) (sqGet : SqGet) (sqSet : SqSet)
    (value : String) (t : RType) (opts : ResolveOptions) :
    Except ResolveError String :=
  if isNumericId value then
    .ok value
  else
    match resolve api sqGet sqSet value { opts with rtype := some t, first := true } with
    | (.error e, _, _) => .error e
    | (.ok [], _, _) =>
        .error { message := "No " ++ rtypeName t ++ " found matching \"" ++ value ++ "\"",
                 query := value, rtype := some t }
    | (.ok (r :: _), _, _) => .ok r.id

/-- An entry of `ResolvedMetadata`. -/
structure MetaEntry where
  input : String
  id : String
  label : String
  reusable : Bool
deriving DecidableEq, Repr

/-- `resolveFilterIds(api, filters, typeMapping, options)`: every mapped,
non-numeric filter value is resolved with `first: true`; resolved keys are
rewritten to the match's id and recorded in the metadata; unmapped or numeric
values pass through untouched, and a per-key resolution failure keeps the
original value.  `filters` is the entry list of the JS record (keys assumed
distinct), and the returned pair are the `resolved` and `metadata` records
as entry lists. -/
def resolveFilterIds (api : ApiOracle) (sqGet : SqGet) (sqSet : SqSet)
    (filters : List (String × String)) (typeMapping : String → Option RType)
    (opts : ResolveOptions) :
    List (String × String) × List (String × MetaEntry) :=
  match filters with
  | [] => ([], [])
  | (key, value) :: rest =>
      let tail := resolveFilterIds api sqGet sqSet rest typeMapping opts
      match typeMapping key with
      | none => ((key, value) :: tail.1, tail.2)
      | some t =>
          if isNumericId value then
            ((key, value) :: tail.1, tail.2)
          else
            match (resolve api sqGet sqSet value
                { opts with rtype := some t, first := true }).1 with
            | .ok (r :: _) =>
                ((key, r.id) :: tail.1,
                 (key, { input := value, id := r.id, label := r.label,
                         reusable := r.exact }) :: tail.2)
            | .ok [] => ((key, value) :: tail.1, tail.2)
            | .error _ => ((key, value) :: tail.1, tail.2)

/-! ## TTL response cache (`FileCache`): TTL defaulting

Source: the cache module's `DEFAULT_TTLS` table and `FileCache.getTTL`. -/

/-- `DEFAULT_TTLS`, in source order (seconds). -/
def DEFAULT_TTLS : List (String × Nat) :=
  [("/projects", 3600), ("/people", 3600), ("/services", 3600),
   ("/time_entries", 300), ("/tasks", 900), ("/budgets", 900)]

/-- The `for (const [pattern, ttl] of Object.entries(DEFAULT_TTLS))` loop of
`getTTL`: first table entry whose key is a prefix of the endpoint, default
300. -/
def defaultTTLFor : List (String × Nat) → String → Nat
  | [], _ => 300
  | (p, t) :: rest, endpoint =>
      if listStartsWith endpoint.data p.data then t else defaultTTLFor rest endpoint

/-- `FileCache.getTTL(endpoint, customTTL)`: an explicit TTL wins, otherwise
the table default. -/
def getTTL (endpoint : String) (customTTL : Option Nat) : Nat :=
  match customTTL with
  | some t => t
  | none => defaultTTLFor DEFAULT_TTLS endpoint

/-- Specification-side TTL selection: the table entry with the longest key
that is a prefix of the endpoint (ties broken towards later entries, which
cannot occur for distinct keys). -/
def longestMatchTTL : List (String × Nat) → String → Option (String × Nat)
  | [], _ => none
  | (p, t) :: rest, endpoint =>
      match longestMatchTTL rest endpoint with
      | none => if listStartsWith endpoint.data p.data then some (p, t) else none
      | some (q, u) =>
          if listStartsWith endpoint.data p.data && decide (q.length < p.length) then
            some (p, t)
          else some (q, u)

/-! ## TTL response cache: file-system world

Every Node `fs` primitive the cache touches is embedded as an operation that
can fail, controlled by per-path failure switches in the world, so the
`try`/`catch` structure of the source is represented faithfully.  A stored
file is its stat size plus its parse outcome (`none` = unparseable JSON);
the entry's `data`/`params` payload is abstracted to a `String`, and the
sha256-based cache key is abstracted to an injective encoding of
`(endpoint, orgId, params)` — neither choice affects any claim. -/

/-- A parsed `CacheEntry`: `{data, timestamp, ttl, endpoint}`; `params` is
folded into the opaque `data` payload. -/
structure QCEntry where
  data : String
  timestamp : Nat
  ttl : Nat
  endpoint : String
deriving DecidableEq, Repr

/-- A file on disk: stat size and parse outcome. -/
structure RawQFile where
  size : Nat
  parsed : Option QCEntry
deriving DecidableEq, Repr

/-- The file-system world: the cache directory's contents plus failure
switches for each primitive. -/
structure FsWorld where
  files : List (String × RawQFile)
  cacheDirExists : Bool := true
  failRead : String → Bool := fun _ => false
  failWrite : String → Bool := fun _ => false
  failUnlink : String → Bool := fun _ => false
  failStat : String → Bool := fun _ => false
  failReaddir : Bool := false

/-- The fallible file-system monad: a state-and-error monad over the
world. -/
def FsM (α : Type) : Type := FsWorld → Except Unit α × FsWorld

instance instMonadFsM : Monad FsM where
  pure a := fun w => (.ok a, w)
  bind m f := fun w =>
    match m w with
    | (.ok a, w1) => f a w1
    | (.error e, w1) => (.error e, w1)

/-- Run a computation, converting any escaped error into the fallback value:
the outermost `try { ... } catch { return fallback }` of each public cache
operation.  State changes made before the failure persist. -/
def runTotal (m : FsM α) (fallback : α) : FsWorld → α × FsWorld :=
  fun w =>
    match m w with
    | (.ok a, w1) => (a, w1)
    | (.error _, w1) => (fallback, w1)

/-- An inner `try { ... } catch { ... }` block: on failure run the handler
from the post-failure state. -/
def tryCatch (m : FsM α) (handler : FsM α) : FsM α :=
  fun w =>
    match m w with
    | (.ok a, w1) => (.ok a, w1)
    | (.error _, w1) => handler w1

/-- `existsSync` (never throws). -/
def existsM (p : String) : FsM Bool :=
  fun w => (.ok (w.files.lookup p).isSome, w)

/-- `readFileSync` followed by `JSON.parse`: throws when reading fails, the
file is absent, or its content does not parse. -/
def readFileM (p : String) : FsM QCEntry :=
  fun w =>
    if w.failRead p then (.error (), w)
    else
      match w.files.lookup p with
      | none => (.error (), w)
      | some f =>
          match f.parsed with
          | none => (.error (), w)
          | some e => (.ok e, w)

/-- `writeFileSync`: replaces the file's content. -/
def writeM (p : String) (f : RawQFile) : FsM Unit :=
  fun w =>
    if w.failWrite p then (.error (), w)
    else (.ok (), { w with files := (p, f) :: w.files.filter (fun x => x.1 != p) })

/-- `unlinkSync`. -/
def unlinkM (p : String) : FsM Unit :=
  fun w =>
    if w.failUnlink p then (.error (), w)
    else (.ok (), { w with files := w.files.filter (fun x => x.1 != p) })

/-- `statSync(...).size`. -/
def statM (p : String) : FsM Nat :=
  fun w =>
    if w.failStat p then (.error (), w)
    else
      match w.files.lookup p with
      | none => (.error (), w)
      | some f => (.ok f.size, w)

/-- `readdirSync(cacheDir)`. -/
def readdirM : FsM (List String) :=
  fun w =>
    if w.failReaddir then (.error (), w)
    else (.ok (w.files.map (fun x => x.1)), w)

/-! ## TTL response cache: public operations -/

/-- `getCacheKey(endpoint, params, orgId)`: the sha256/16-hex key, modelled
as an injective encoding of the same inputs (`params` already normalized to
a string). -/
def getCacheKey (endpoint paramsRepr orgId : String) : String :=
  "q:" ++ endpoint ++ "|" ++ orgId ++ "|" ++ paramsRepr

/-- `MAX_CACHE_SIZE`: 50MB. -/
def MAX_CACHE_SIZE : Nat := 50 * 1024 * 1024

/-- `MAX_CACHE_ENTRIES`. -/
def MAX_CACHE_ENTRIES : Nat := 1000

/-- An entry is expired when its age in seconds exceeds its TTL:
`(now - timestamp) / 1000 > ttl`, i.e. `now - timestamp > 1000 * ttl`
(exact for the integral quantities involved). -/
def entryExpired (now : Nat) (e : QCEntry) : Bool :=
  decide (now - e.timestamp > 1000 * e.ttl)

/-- `FileCache.get(endpoint, params, orgId)`: miss when disabled or absent;
expired hits are deleted (the delete itself guarded by an inner try) and
reported as misses; every other failure is caught and degrades to a miss. -/
def FileCache.get (enabled : Bool) (now : Nat)
    (endpoint paramsRepr orgId : String) : FsWorld → Option String × FsWorld :=
  fun w =>
    if !enabled then (none, w)
    else
      runTotal (do
        let key := getCacheKey endpoint paramsRepr orgId
        let p := key ++ ".json"
        let ex ← existsM p
        if !ex then
          pure none
        else do
          let e ← readFileM p
          if entryExpired now e then do
            tryCatch (unlinkM p) (pure ())
            pure none
          else
            pure (some e.data)) none w

/-- `FileCache.set(endpoint, params, orgId, data, options)`: write the entry
with the (possibly defaulted) TTL; any failure is swallowed.  The modelled
stat size of the written file is the payload length.  The asynchronous
post-write `cleanup` sweep (`setImmediate`) is modelled separately as the
pure function `cleanup` below. -/
def FileCache.set (enabled : Bool) (now : Nat)
    (endpoint paramsRepr orgId : String) (data : String)
    (customTTL : Option Nat) : FsWorld → Unit × FsWorld :=
  fun w =>
    if !enabled then ((), w)
    else
      runTotal (do
        let key := getCacheKey endpoint paramsRepr orgId
        let p := key ++ ".json"
        writeM p { size := data.length,
                   parsed := some { data := data, timestamp := now,
                                    ttl := getTTL endpoint customTTL,
                                    endpoint := endpoint } }) () w

/-- The per-file body of the `invalidate` loop. -/
def invalidateFile (pat : Option String) (p : String) : FsM Unit :=
  if !p.endsWith ".json" then pure ()
  else
    match pat with
    | none => unlinkM p
    | some pattern =>
        tryCatch (do
          let e ← readFileM p
          if containsSub pattern.data e.endpoint.data then unlinkM p
          else pure ())
          (unlinkM p)

/-- The `for (const file of files)` loop of `invalidate`. -/
def invalidateLoop (pat : Option String) : List String → FsM Unit
  | [] => pure ()
  | p :: rest => do
      invalidateFile pat p
      invalidateLoop pat rest

/-- `FileCache.invalidate(endpointPattern?)`: delete everything, or every
entry whose stored endpoint contains the pattern (unparseable entries are
deleted too); all failures swallowed. -/
def FileCache.invalidate (enabled : Bool) (pat : Option String) :
    FsWorld → Unit × FsWorld :=
  fun w =>
    if !enabled then ((), w)
    else
      runTotal (do
        let files ← readdirM
        invalidateLoop pat files) () w

/-- `FileCache.clear()`: `invalidate` with no pattern. -/
def FileCache.clear (enabled : Bool) : FsWorld → Unit × FsWorld :=
  FileCache.invalidate enabled none

/-- The result of `FileCache.stats()`. -/
structure StatsResult where
  entries : Nat
  size : Nat
  oldestAge : Nat
deriving DecidableEq, Repr

/-- The accumulation loop of `stats`: sum stat sizes (a stat failure escapes
to the outer catch) and track the oldest parseable timestamp (read/parse
failures ignored per file). -/
def statsLoop : List String → Nat → Nat → FsM (Nat × Nat)
  | [], totalSize, oldest => pure (totalSize, oldest)
  | p :: rest, totalSize, oldest => do
      let sz ← statM p
      let oldest1 ← tryCatch (do
          let e ← readFileM p
          pure (if e.timestamp < oldest then e.timestamp else oldest))
        (pure oldest)
      statsLoop rest (totalSize + sz) oldest1

/-- `FileCache.stats()`: entry count, total size and the age in seconds of
the oldest entry (`Math.round`); zeros when disabled, when the directory is
missing, or on any caught failure. -/
def FileCache.stats (enabled : Bool) (now : Nat) :
    FsWorld → StatsResult × FsWorld :=
  fun w =>
    if !enabled || !w.cacheDirExists then
      ({ entries := 0, size := 0, oldestAge := 0 }, w)
    else
      runTotal (do
        let files := (← readdirM).filter (fun f => f.endsWith ".json")
        let (totalSize, oldest) ← statsLoop files 0 now
        pure { entries := files.length, size := totalSize,
               oldestAge := (now - oldest + 500) / 1000 })
        { entries := 0, size := 0, oldestAge := 0 } w

/-! ## TTL response cache: the cleanup sweep

`FileCache.cleanup` is modelled as a pure function of the directory
snapshot: it returns the retained file infos (path, timestamp, stat size).
Expired and unparseable files are deleted in the first pass; if the
remaining total size or count is over the ceilings, files are deleted
oldest-timestamp-first (the source sorts by timestamp ascending and shifts
from the front) until both ceilings hold. -/

/-- A surviving file as collected by the sweep's first pass. -/
structure FileInfo where
  path : String
  timestamp : Nat
  size : Nat
deriving DecidableEq, Repr

/-- First pass of `cleanup`: drop unparseable and expired files, keep
`{path, timestamp, size}` for the rest. -/
def cleanupInfos (now : Nat) (files : List (String × RawQFile)) : List FileInfo :=
  files.filterMap (fun f =>
    match f.2.parsed with
    | none => none
    | some e =>
        if entryExpired now e then none
        else some { path := f.1, timestamp := e.timestamp, size := f.2.size })

/-- Total stat size of a list of file infos. -/
def sumSizes (l : List FileInfo) : Nat := (l.map (fun x => x.size)).sum

/-- Insertion step of the timestamp sort. -/
def insertTs (a : FileInfo) : List FileInfo → List FileInfo
  | [] => [a]
  | b :: l => if a.timestamp ≤ b.timestamp then a :: b :: l else b :: insertTs a l

/-- The sweep's `fileInfos.sort((a, b) => a.timestamp - b.timestamp)`:
sort ascending by timestamp. -/
def sortTs : List FileInfo → List FileInfo
  | [] => []
  | a :: l => insertTs a (sortTs l)

/-- The eviction guard `totalSize > MAX_CACHE_SIZE || count > MAX_CACHE_ENTRIES`. -/
def overLimits (total count : Nat) : Bool :=
  decide (total > MAX_CACHE_SIZE) || decide (count > MAX_CACHE_ENTRIES)

/-- The `while` loop of `cleanup`: shift (delete) the oldest entry while the
guard holds and entries remain; `total` tracks the remaining total size. -/
def evict : List FileInfo → Nat → List FileInfo
  | [], _ => []
  | x :: rest, total =>
      if overLimits total (x :: rest).length then evict rest (total - x.size)
      else x :: rest

/-- `FileCache.cleanup()` as a pure function of the directory snapshot,
returning the retained files. -/
def cleanup (now : Nat) (files : List (String × RawQFile)) : List FileInfo :=
  let infos := cleanupInfos now files
  let total := sumSizes infos
  if overLimits total infos.length then evict (sortTs infos) total
  else infos

/-! ## Sliding-window rate limiter

Modelled from the spec: the rate limiter implementation file is not part of
the repository snapshot, so the limiter is embedded from the specification's
description of `acquire`: per limiter class the state is the sequence of
admitted timestamps; an arriving call first prunes timestamps older than
`now - windowMs`, is admitted only when the pruned count is below `limit`
(otherwise it suspends and re-checks later, which the trace relation
represents by only ever recording actual admissions), and appends its
admission timestamp exactly on admission.  `LimiterTrace limit windowMs log
st` relates the full history of admitted timestamps (`log`, in admission
order, times nondecreasing) to the retained window state `st`. -/

/-- Modelled from the spec: prune timestamps older than `now - windowMs`
(kept iff `t ≥ now - windowMs`, written without truncated subtraction). -/
def pruneWindow (windowMs now : Nat) (ts : List Nat) : List Nat :=
  ts.filter (fun t => decide (now ≤ t + windowMs))

/-- Modelled from the spec: the admission traces of one limiter class.  A
step admits a call at time `now` (no earlier than every previous admission)
only when the pruned window holds fewer than `limit` timestamps, and appends
`now` to both the history and the pruned state. -/
inductive LimiterTrace (limit windowMs : Nat) : List Nat → List Nat → Prop where
  | nil : LimiterTrace limit windowMs [] []
  | step {log st : List Nat} (now : Nat)
      (hmono : ∀ t ∈ log, t ≤ now)
      (hadm : (pruneWindow windowMs now st).length < limit)
      (htr : LimiterTrace limit windowMs log st) :
      LimiterTrace limit windowMs (log ++ [now]) (pruneWindow windowMs now st ++ [now])

/-- The admitted timestamps falling in the trailing window `[T - windowMs, T]`. -/
def windowHits (windowMs T : Nat) (log : List Nat) : List Nat :=
  log.filter (fun t => decide (T ≤ t + windowMs) && decide (t ≤ T))

/-! ## Concrete oracles used by witness instantiations -/

/-- An API oracle that answers every request with no resources. -/
def apiEmpty : ApiOracle := fun _ => []

/-- An API oracle with exactly one person, answering person requests. -/
def apiOnePerson : ApiOracle := fun req =>
  match req with
  | .peopleByEmail _ _ => [{ id := "500521", firstName := "John", lastName := "Doe" }]
  | .peopleByQuery _ _ => [{ id := "500521", firstName := "John", lastName := "Doe" }]
  | _ => []

/-- An API oracle answering name searches with two companies. -/
def apiTwoCompanies : ApiOracle := fun req =>
  match req with
  | .companiesByQuery _ _ =>
      [{ id := "c1", name := "Acme Corp" }, { id := "c2", name := "Acme Labs" }]
  | _ => []

/-- A sqlite read oracle that always misses. -/
def sqGetMiss : SqGet := fun _ => .ok none

/-- A sqlite read oracle with one cached entry. -/
def sqGetHit : SqGet := fun key =>
  if key == "resolve:org1:person:ada@ex.co" then
    .ok (some { id := "7", rtype := .person, label := "Ada", query := "ada@ex.co",
                exact := true })
  else .ok none

/-- A sqlite read oracle that always throws. -/
def sqGetFail : SqGet := fun _ => .error ()

/-- A sqlite write oracle that always succeeds. -/
def sqSetOk : SqSet := fun _ _ _ => .ok ()

/-- A sqlite write oracle that always throws. -/
def sqSetFail : SqSet := fun _ _ _ => .error ()

/-- A file-system world in which every primitive fails. -/
def failWorld : FsWorld :=
  { files := [("k.json", { size := 3, parsed := none })],
    failRead := fun _ => true, failWrite := fun _ => true,
    failUnlink := fun _ => true, failStat := fun _ => true,
    failReaddir := true }

/-- Both global cache ceilings hold: total size at most 50MB and at most
1000 entries. -/
def withinLimits (l : List FileInfo) : Prop :=
  sumSizes l ≤ MAX_CACHE_SIZE ∧ l.length ≤ MAX_CACHE_ENTRIES

instance (l : List FileInfo) : Decidable (withinLimits l) :=
  inferInstanceAs (Decidable (_ ∧ _))

/-- A concrete directory snapshot used by witness instantiations: one
expired file and two 30MB unexpired files. -/
def c4Files : List (String × RawQFile) :=
  [("old.json", { size := 100, parsed := some { data := "x", timestamp := 0, ttl := 1, endpoint := "/projects" } }),
   ("a.json", { size := 30000000, parsed := some { data := "a", timestamp := 9000000, ttl := 100000, endpoint := "/projects" } }),
   ("b.json", { size := 30000000, parsed := some { data := "b", timestamp := 9500000, ttl := 100000, endpoint := "/projects" } })]

/-! # Theorems

Helper lemmas come first; each claim is then settled by a single theorem
carrying the claim id in its doc comment, with a closed witness instantiation
when the theorem has hypotheses. -/

/-! ## Helper lemmas about the detection patterns -/

theorem email_has_at {l : List Char} (h : emailChars l = true) : '@' ∈ l := by
  simp only [emailChars, Bool.and_eq_true, beq_iff_eq] at h
  exact List.count_pos_iff.mp (by omega)

theorem email_not_numeric {l : List Char} (h : emailChars l = true) :
    numericChars l = false := by
  have hat := email_has_at h
  by_contra hb
  rw [Bool.not_eq_false] at hb
  simp only [numericChars, digits1, Bool.and_eq_true, List.all_eq_true] at hb
  have hd := hb.2 '@' hat
  exact absurd hd (by decide)

theorem no_at_not_email {l : List Char} (h : '@' ∉ l) : emailChars l = false := by
  have hc : l.count '@' = 0 := List.count_eq_zero.mpr h
  simp [emailChars, hc]

theorem project_first_char {l : List Char} (h : projectNumberChars l = true) :
    ∃ c rest, l = c :: rest ∧ (c = 'P' ∨ c = 'p') := by
  unfold projectNumberChars at h
  split at h
  · simp only [Bool.and_eq_true, Bool.or_eq_true, beq_iff_eq] at h
    exact ⟨_, _, rfl, h.1⟩
  · simp only [Bool.and_eq_true, Bool.or_eq_true, beq_iff_eq] at h
    exact ⟨_, _, rfl, h.1.1.1⟩
  · simp at h

theorem project_no_at {l : List Char} (h : projectNumberChars l = true) :
    '@' ∉ l := by
  unfold projectNumberChars at h
  split at h
  · simp only [Bool.and_eq_true, Bool.or_eq_true, beq_iff_eq, digits1,
      List.all_eq_true] at h
    intro hmem
    simp only [List.mem_cons] at hmem
    rcases hmem with h1 | h2 | h3
    · rcases h.1 with hp | hp <;> rw [hp] at h1 <;> exact absurd h1 (by decide)
    · exact absurd h2 (by decide)
    · exact absurd (h.2.2 '@' h3) (by decide)
  · simp only [Bool.and_eq_true, Bool.or_eq_true, beq_iff_eq, digits1,
      List.all_eq_true] at h
    intro hmem
    simp only [List.mem_cons] at hmem
    rcases hmem with h1 | h2 | h3 | h4 | h5
    · rcases h.1.1.1 with hp | hp <;> rw [hp] at h1 <;> exact absurd h1 (by decide)
    · rcases h.1.1.2 with hp | hp <;> rw [hp] at h2 <;> exact absurd h2 (by decide)
    · rcases h.1.2 with hp | hp <;> rw [hp] at h3 <;> exact absurd h3 (by decide)
    · exact absurd h4 (by decide)
    · exact absurd (h.2.2 '@' h5) (by decide)
  · simp at h

theorem project_not_numeric {l : List Char} (h : projectNumberChars l = true) :
    numericChars l = false := by
  obtain ⟨c, rest, hl, hc⟩ := project_first_char h
  subst hl
  rcases hc with hc | hc <;> subst hc <;>
    simp [numericChars, digits1, List.all_cons]

theorem project_not_email {l : List Char} (h : projectNumberChars l = true) :
    emailChars l = false :=
  no_at_not_email (project_no_at h)

theorem deal_first_char {l : List Char} (h : dealNumberChars l = true) :
    ∃ c rest, l = c :: rest ∧ (c = 'D' ∨ c = 'd') := by
  unfold dealNumberChars at h
  split at h
  · simp only [Bool.and_eq_true, Bool.or_eq_true, beq_iff_eq] at h
    exact ⟨_, _, rfl, h.1⟩
  · simp only [Bool.and_eq_true, Bool.or_eq_true, beq_iff_eq] at h
    exact ⟨_, _, rfl, h.1.1.1.1⟩
  · simp at h

theorem deal_no_at {l : List Char} (h : dealNumberChars l = true) :
    '@' ∉ l := by
  unfold dealNumberChars at h
  split at h
  · simp only [Bool.and_eq_true, Bool.or_eq_true, beq_iff_eq, digits1,
      List.all_eq_true] at h
    intro hmem
    simp only [List.mem_cons] at hmem
    rcases hmem with h1 | h2 | h3
    · rcases h.1 with hp | hp <;> rw [hp] at h1 <;> exact absurd h1 (by decide)
    · exact absurd h2 (by decide)
    · exact absurd (h.2.2 '@' h3) (by decide)
  · simp only [Bool.and_eq_true, Bool.or_eq_true, beq_iff_eq, digits1,
      List.all_eq_true] at h
    intro hmem
    simp only [List.mem_cons] at hmem
    rcases hmem with h1 | h2 | h3 | h4 | h5 | h6
    · rcases h.1.1.1.1 with hp | hp <;> rw [hp] at h1 <;> exact absurd h1 (by decide)
    · rcases h.1.1.1.2 with hp | hp <;> rw [hp] at h2 <;> exact absurd h2 (by decide)
    · rcases h.1.1.2 with hp | hp <;> rw [hp] at h3 <;> exact absurd h3 (by decide)
    · rcases h.1.2 with hp | hp <;> rw [hp] at h4 <;> exact absurd h4 (by decide)
    · exact absurd h5 (by decide)
    · exact absurd (h.2.2 '@' h6) (by decide)
  · simp at h

theorem deal_not_numeric {l : List Char} (h : dealNumberChars l = true) :
    numericChars l = false := by
  obtain ⟨c, rest, hl, hc⟩ := deal_first_char h
  subst hl
  rcases hc with hc | hc <;> subst hc <;>
    simp [numericChars, digits1, List.all_cons]

theorem deal_not_email {l : List Char} (h : dealNumberChars l = true) :
    emailChars l = false :=
  no_at_not_email (deal_no_at h)

theorem deal_not_project {l : List Char} (h : dealNumberChars l = true) :
    projectNumberChars l = false := by
  by_contra hb
  rw [Bool.not_eq_false] at hb
  obtain ⟨c, rest, hl, hc⟩ := project_first_char hb
  obtain ⟨c2, rest2, hl2, hc2⟩ := deal_first_char h
  rw [hl] at hl2
  injection hl2 with hc12 _
  subst hc12
  rcases hc with hp | hp <;> rcases hc2 with hd | hd <;> rw [hp] at hd <;>
    exact absurd hd (by decide)

/-! ## Helper lemma: `resolve` on a numeric query -/

theorem resolve_numeric (api : ApiOracle) (sqGet : SqGet) (sqSet : SqSet)
    (query : String) (opts : ResolveOptions) (h : isNumericId query = true) :
    resolve api sqGet sqSet query opts =
      (.ok [{ id := query, rtype := opts.rtype.getD .project, label := query,
              query := query, exact := true }], [], []) := by
  unfold resolve
  simp [h]

/-! ## Claim C5 -/

/-- C5: for every query matching the numeric-ID pattern, `resolve` returns
exactly one result whose `id` and `label` both equal the query and whose
`exact` field is true, dispatches no API request, and does so for every
configured resource type. -/
theorem c5_numeric_query_passthrough (api : ApiOracle) (sqGet : SqGet)
    (sqSet : SqSet) (query : String) (opts : ResolveOptions)
    (h : isNumericId query = true) :
    ∃ r, resolve api sqGet sqSet query opts = (.ok [r], [], []) ∧
      r.id = query ∧ r.label = query ∧ r.exact = true :=
  ⟨_, resolve_numeric api sqGet sqSet query opts h, rfl, rfl, rfl⟩

/-- Witness for C5 at the concrete numeric query "4821". -/
theorem c5_numeric_query_passthrough_witness :
    isNumericId "4821" = true ∧
    ∃ r, resolve apiEmpty sqGetMiss sqSetOk "4821"
        { rtype := some .deal, first := true } = (.ok [r], [], []) ∧
      r.id = "4821" ∧ r.label = "4821" ∧ r.exact = true :=
  ⟨by decide,
   c5_numeric_query_passthrough apiEmpty sqGetMiss sqSetOk "4821"
     { rtype := some .deal, first := true } (by decide)⟩

/-! ## Claim C9 -/

/-- C9: a numeric query resolved without an explicit type option yields a
single pass-through result whose `type` is `project` (no error, no
query-derived type). -/
theorem c9_numeric_default_type_project (api : ApiOracle) (sqGet : SqGet)
    (sqSet : SqSet) (query : String) (opts : ResolveOptions)
    (h : isNumericId query = true) (ht : opts.rtype = none) :
    ∃ r, resolve api sqGet sqSet query opts = (.ok [r], [], []) ∧
      r.rtype = RType.project := by
  refine ⟨_, resolve_numeric api sqGet sqSet query opts h, ?_⟩
  simp [ht]

/-- Witness for C9 at the concrete numeric query "777332". -/
theorem c9_numeric_default_type_project_witness :
    isNumericId "777332" = true ∧ ({} : ResolveOptions).rtype = none ∧
    ∃ r, resolve apiEmpty sqGetMiss sqSetOk "777332" {} = (.ok [r], [], []) ∧
      r.rtype = RType.project :=
  ⟨by decide, rfl,
   c9_numeric_default_type_project apiEmpty sqGetMiss sqSetOk "777332" {}
     (by decide) rfl⟩

/-! ## Claim C6 -/

/-- C6: `detectResourceType` returns no detection for numeric strings,
person (high confidence, pattern "email") for email-shaped strings, project
for project-number strings, deal for deal-number strings, and nothing for
all other strings; in particular on "a@b.co", "PRJ-42", "P-42", "42" and
"Acme" it behaves as the claim lists. -/
theorem c6_detect_type_cases :
    (∀ s : String, isNumericId s = true → detectResourceType s = none) ∧
    (∀ s : String, emailChars s.data = true →
        detectResourceType s =
          some { rtype := .person, confidence := .high, pattern := "email" }) ∧
    (∀ s : String, projectNumberChars s.data = true →
        detectResourceType s =
          some { rtype := .project, confidence := .high, pattern := "project_number" }) ∧
    (∀ s : String, dealNumberChars s.data = true →
        detectResourceType s =
          some { rtype := .deal, confidence := .high, pattern := "deal_number" }) ∧
    (∀ s : String, numericChars s.data = false → emailChars s.data = false →
        projectNumberChars s.data = false → dealNumberChars s.data = false →
        detectResourceType s = none) ∧
    detectResourceType "a@b.co" =
      some { rtype := .person, confidence := .high, pattern := "email" } ∧
    detectResourceType "PRJ-42" =
      some { rtype := .project, confidence := .high, pattern := "project_number" } ∧
    detectResourceType "P-42" =
      some { rtype := .project, confidence := .high, pattern := "project_number" } ∧
    detectResourceType "42" = none ∧
    detectResourceType "Acme" = none := by
  refine ⟨?_, ?_, ?_, ?_, ?_, by decide, by decide, by decide, by decide, by decide⟩
  · intro s h
    simp only [isNumericId] at h
    simp [detectResourceType, h]
  · intro s h
    simp [detectResourceType, email_not_numeric h, h]
  · intro s h
    simp [detectResourceType, project_not_numeric h, project_not_email h, h]
  · intro s h
    simp [detectResourceType, deal_not_numeric h, deal_not_email h,
      deal_not_project h, h]
  · intro s h1 h2 h3 h4
    simp [detectResourceType, h1, h2, h3, h4]

/-- Witness for C6: the email clause applied at "dev@studiometa.fr". -/
theorem c6_detect_type_cases_witness :
    emailChars "dev@studiometa.fr".data = true ∧
    detectResourceType "dev@studiometa.fr" =
      some { rtype := .person, confidence := .high, pattern := "email" } :=
  ⟨by decide, c6_detect_type_cases.2.1 "dev@studiometa.fr" (by decide)⟩

/-! ## Claim C7 -/

/-- C7: `resolve` never returns an empty result list, and whenever the
dispatched lookup strategy produces zero matches it throws a `ResolveError`
carrying the original query and the attempted resource type. -/
theorem c7_zero_matches_not_found (api : ApiOracle) (sqGet : SqGet)
    (sqSet : SqSet) (query : String) (opts : ResolveOptions) :
    (∀ rs log ws, resolve api sqGet sqSet query opts = (.ok rs, log, ws) →
       rs ≠ []) ∧
    (∀ rt pat log, isNumericId query = false →
       resolveCacheHit sqGet query opts = none →
       determineType query opts = .ok (rt, pat) →
       runStrategy api query rt pat opts.projectId = ([], log) →
       resolve api sqGet sqSet query opts =
         (.error { message := "No " ++ rtypeName rt ++ " found matching \"" ++
                     query ++ "\"",
                   query := query, rtype := some rt }, log, [])) := by
  constructor
  · intro rs log ws h
    unfold resolve at h
    split at h
    · simp only [Prod.mk.injEq, Except.ok.injEq] at h
      rw [← h.1]
      simp
    · split at h
      · simp only [Prod.mk.injEq, Except.ok.injEq] at h
        rw [← h.1]
        simp
      · split at h
        · simp at h
        · split at h
          · simp at h
          · split at h
            · simp only [Prod.mk.injEq, Except.ok.injEq] at h
              rw [← h.1]
              simp
            · simp only [Prod.mk.injEq, Except.ok.injEq] at h
              rw [← h.1]
              simp
  · intro rt pat log hnum hcache hdet hstrat
    unfold resolve
    simp [hnum, hcache, hdet, hstrat]

/-- Witness for C7: a company search for "Nonexistent" against an API with
no companies throws the typed not-found error. -/
theorem c7_zero_matches_not_found_witness :
    isNumericId "Nonexistent" = false ∧
    resolveCacheHit sqGetMiss "Nonexistent" { rtype := some .company } = none ∧
    determineType "Nonexistent" { rtype := some .company } = .ok (.company, none) ∧
    runStrategy apiEmpty "Nonexistent" .company none none =
      ([], [.companiesByQuery "Nonexistent" 10]) ∧
    resolve apiEmpty sqGetMiss sqSetOk "Nonexistent" { rtype := some .company } =
      (.error { message := "No company found matching \"Nonexistent\"",
                query := "Nonexistent", rtype := some .company },
       [.companiesByQuery "Nonexistent" 10], []) :=
  ⟨by decide, by rfl, by rfl, by rfl,
   (c7_zero_matches_not_found apiEmpty sqGetMiss sqSetOk "Nonexistent"
       { rtype := some .company }).2 .company none
     [.companiesByQuery "Nonexistent" 10] (by decide) (by rfl) (by rfl) (by rfl)⟩

/-! ## Claim C10 -/

theorem rfi_lookup_of_not_mem (api : ApiOracle) (sqGet : SqGet) (sqSet : SqSet)
    (filters : List (String × String)) (tm : String → Option RType)
    (opts : ResolveOptions) (key : String)
    (hk : key ∉ filters.map Prod.fst) :
    (resolveFilterIds api sqGet sqSet filters tm opts).1.lookup key = none ∧
    (resolveFilterIds api sqGet sqSet filters tm opts).2.lookup key = none := by
  induction filters with
  | nil => simp [resolveFilterIds]
  | cons kv rest ih =>
    obtain ⟨k, v⟩ := kv
    simp only [List.map_cons, List.mem_cons] at hk
    push_neg at hk
    obtain ⟨hne, hrest⟩ := hk
    have ihr := ih hrest
    have hbeq : (key == k) = false := beq_eq_false_iff_ne.mpr hne
    simp only [resolveFilterIds]
    split
    · simp [List.lookup, hbeq, ihr.1, ihr.2]
    · split
      · simp [List.lookup, hbeq, ihr.1, ihr.2]
      · split <;> simp [List.lookup, hbeq, ihr.1, ihr.2]

/-- C10: in `resolveFilterIds`, every filter key that has no type mapping or
whose value is already a numeric ID passes through unchanged into the
resolved map, gets no metadata entry, and resolution of the other keys never
disturbs it. -/
theorem c10_filter_passthrough (api : ApiOracle) (sqGet : SqGet) (sqSet : SqSet)
    (filters : List (String × String)) (tm : String → Option RType)
    (opts : ResolveOptions) (key value : String)
    (hnd : (filters.map Prod.fst).Nodup)
    (hmem : (key, value) ∈ filters)
    (hpass : tm key = none ∨ isNumericId value = true) :
    (resolveFilterIds api sqGet sqSet filters tm opts).1.lookup key = some value ∧
    (resolveFilterIds api sqGet sqSet filters tm opts).2.lookup key = none := by
  induction filters with
  | nil => simp at hmem
  | cons kv rest ih =>
    obtain ⟨k, v⟩ := kv
    simp only [List.map_cons, List.nodup_cons] at hnd
    obtain ⟨hknotin, hndrest⟩ := hnd
    simp only [List.mem_cons] at hmem
    rcases hmem with heq | hmem
    · injection heq with hk hv
      subst hk
      subst hv
      have htail := rfi_lookup_of_not_mem api sqGet sqSet rest tm opts key hknotin
      simp only [resolveFilterIds]
      rcases hpass with hp | hp
      · rw [hp]
        simp [List.lookup, htail.2]
      · split
        · simp [List.lookup, htail.2]
        · rw [if_pos hp]
          simp [List.lookup, htail.2]
    · have hkey_in_rest : key ∈ rest.map Prod.fst :=
        List.mem_map_of_mem Prod.fst hmem
      have hne : key ≠ k := fun hkk => hknotin (hkk ▸ hkey_in_rest)
      have hbeq : (key == k) = false := beq_eq_false_iff_ne.mpr hne
      have ihr := ih hndrest hmem
      simp only [resolveFilterIds]
      split
      · simp [List.lookup, hbeq, ihr.1, ihr.2]
      · split
        · simp [List.lookup, hbeq, ihr.1, ihr.2]
        · split <;> simp [List.lookup, hbeq, ihr.1, ihr.2]

/-- Witness for C10: a two-key filter map where "project_id" is numeric and
passes through while "company_id" resolves. -/
theorem c10_filter_passthrough_witness :
    ((([("project_id", "42"), ("company_id", "Acme")] :
        List (String × String)).map Prod.fst).Nodup ∧
     ("project_id", "42") ∈ [("project_id", "42"), ("company_id", "Acme")] ∧
     isNumericId "42" = true) ∧
    (resolveFilterIds apiTwoCompanies sqGetMiss sqSetOk
        [("project_id", "42"), ("company_id", "Acme")]
        (fun k => if k == "company_id" then some .company else
                  if k == "project_id" then some .project else none)
        {}).1.lookup "project_id" = some "42" ∧
    (resolveFilterIds apiTwoCompanies sqGetMiss sqSetOk
        [("project_id", "42"), ("company_id", "Acme")]
        (fun k => if k == "company_id" then some .company else
                  if k == "project_id" then some .project else none)
        {}).2.lookup "project_id" = none :=
  ⟨⟨by decide, by decide, by decide⟩,
   c10_filter_passthrough apiTwoCompanies sqGetMiss sqSetOk
     [("project_id", "42"), ("company_id", "Acme")]
     (fun k => if k == "company_id" then some .company else
               if k == "project_id" then some .project else none)
     {} "project_id" "42" (by decide) (by decide) (Or.inr (by decide))⟩

/-! ## Claim C1 -/

/-- C1: for every `resolve` call with a non-numeric query and a tenant
(`orgId`): the cache is consulted before any API dispatch under the key
`resolve:<tenant>:<resolved type>:<lowercased query>` and a hit is returned
with no API call and no write; a resolution yielding exactly one candidate
is written back under that key scheme with TTL 24h when exact and 1h
otherwise; and a resolution yielding two or more candidates writes nothing,
also when `first` truncates the returned list. -/
theorem c1_resolve_cache_discipline (api : ApiOracle) (sqGet : SqGet)
    (sqSet : SqSet) (query : String) (opts : ResolveOptions) (o : String)
    (horg : opts.orgId = some o) (hnum : isNumericId query = false) :
    (∀ rt c, resolveTypeForCache query opts = some rt →
       sqGet ("resolve:" ++ o ++ ":" ++ rtypeName rt ++ ":" ++ lowerStr query) =
         .ok (some c) →
       resolve api sqGet sqSet query opts = (.ok [c], [], [])) ∧
    (∀ rt pat r log, resolveCacheHit sqGet query opts = none →
       determineType query opts = .ok (rt, pat) →
       runStrategy api query rt pat opts.projectId = ([r], log) →
       sqSet (getResolveCacheKey o r.rtype r.query) r
           (if r.exact then CACHE_TTL_exact else CACHE_TTL_fuzzy) = .ok () →
       resolve api sqGet sqSet query opts =
         (.ok [r], log,
          [(getResolveCacheKey o r.rtype r.query, r,
            if r.exact then 24 * 60 * 60 * 1000 else 60 * 60 * 1000)])) ∧
    (∀ rt pat r1 r2 rs log, resolveCacheHit sqGet query opts = none →
       determineType query opts = .ok (rt, pat) →
       runStrategy api query rt pat opts.projectId = (r1 :: r2 :: rs, log) →
       (resolve api sqGet sqSet query opts).2.2 = []) := by
  refine ⟨?_, ?_, ?_⟩
  · intro rt c hrt hsq
    have hch : resolveCacheHit sqGet query opts = some c := by
      unfold resolveCacheHit getCachedResolve getResolveCacheKey
      rw [horg, hrt]
      simp [hsq]
    unfold resolve
    simp [hnum, hch]
  · intro rt pat r log hch hdet hstrat hset
    unfold resolve
    simp only [hnum, Bool.false_eq_true, if_false, hch, hdet, hstrat]
    have hset2 : sqSet (getResolveCacheKey o r.rtype r.query) r
        (if r.exact then 86400000 else 3600000) = .ok () := by
      simpa [CACHE_TTL_exact, CACHE_TTL_fuzzy] using hset
    simp [resolveWrites, setCachedResolve, horg, hset2, CACHE_TTL_exact,
      CACHE_TTL_fuzzy]
  · intro rt pat r1 r2 rs log hch hdet hstrat
    unfold resolve
    simp only [hnum, Bool.false_eq_true, if_false, hch, hdet, hstrat]
    simp [resolveWrites, horg]
    split <;> simp

/-- Witness for C1: the single-candidate write clause at the concrete query
"john@ex.co" against an API with one matching person. -/
theorem c1_resolve_cache_discipline_witness :
    ({ orgId := some "org1" } : ResolveOptions).orgId = some "org1" ∧
    isNumericId "john@ex.co" = false ∧
    resolve apiOnePerson sqGetMiss sqSetOk "john@ex.co" { orgId := some "org1" } =
      (.ok [{ id := "500521", rtype := .person, label := "John Doe",
              query := "john@ex.co", exact := true }],
       [.peopleByEmail "john@ex.co" 1],
       [(getResolveCacheKey "org1" RType.person "john@ex.co",
         { id := "500521", rtype := .person, label := "John Doe",
           query := "john@ex.co", exact := true },
         24 * 60 * 60 * 1000)]) :=
  ⟨rfl, by decide,
   (c1_resolve_cache_discipline apiOnePerson sqGetMiss sqSetOk "john@ex.co"
       { orgId := some "org1" } "org1" rfl (by decide)).2.1 .person (some "email")
     { id := "500521", rtype := .person, label := "John Doe",
       query := "john@ex.co", exact := true }
     [.peopleByEmail "john@ex.co" 1] (by rfl) (by rfl) (by rfl) (by rfl)⟩

/-! ## Claim C2 -/

theorem filter_length_mono {α : Type} {p q : α → Bool} (l : List α)
    (h : ∀ a ∈ l, p a = true → q a = true) :
    (l.filter p).length ≤ (l.filter q).length := by
  induction l with
  | nil => simp
  | cons x xs ih =>
    simp only [List.filter_cons]
    have hx := h x (List.mem_cons_self x xs)
    have ih2 := ih (fun a ha hp => h a (List.mem_cons_of_mem _ ha) hp)
    cases hp : p x <;> cases hq : q x <;> simp_all <;> omega

theorem trace_window_sublist {limit w : Nat} {log st : List Nat}
    (h : LimiterTrace limit w log st) :
    ∀ n, (∀ t ∈ log, t ≤ n) →
      List.Sublist (log.filter (fun t => decide (n ≤ t + w))) st := by
  induction h with
  | nil => intro n _; simp
  | @step log st now hmono hadm htr ih =>
    intro n hn
    have hnow_n : now ≤ n := hn now (by simp)
    have himp : ∀ t : Nat, decide (n ≤ t + w) = true →
        decide (now ≤ t + w) = true := by
      intro t ht
      simp only [decide_eq_true_eq] at ht ⊢
      omega
    have hkey : List.Sublist (log.filter (fun t => decide (n ≤ t + w)))
        (pruneWindow w now st) := by
      have hA : List.Sublist (log.filter (fun t => decide (now ≤ t + w))) st :=
        ih now hmono
      have hB := hA.filter (fun t => decide (n ≤ t + w))
      have hC : (log.filter (fun t => decide (now ≤ t + w))).filter
          (fun t => decide (n ≤ t + w)) =
          log.filter (fun t => decide (n ≤ t + w)) := by
        rw [List.filter_filter]
        apply List.filter_congr
        intro a _
        cases hd : decide (n ≤ a + w) with
        | false => simp
        | true => simp [himp a hd]
      have hD : List.Sublist (st.filter (fun t => decide (n ≤ t + w)))
          (st.filter (fun t => decide (now ≤ t + w))) :=
        List.monotone_filter_right st (fun a ha => himp a ha)
      rw [hC] at hB
      exact hB.trans hD
    rw [List.filter_append]
    cases hpn : decide (n ≤ now + w) with
    | true =>
        simp only [List.filter_cons, hpn, if_true, Bool.true_eq_false,
          List.filter_nil]
        exact hkey.append (List.Sublist.refl [now])
    | false =>
        simp only [List.filter_cons, hpn, Bool.false_eq_true, if_false,
          List.filter_nil, List.append_nil]
        exact hkey.trans (List.sublist_append_left _ _)

theorem trace_state_length {limit w : Nat} {log st : List Nat}
    (h : LimiterTrace limit w log st) : st.length ≤ limit := by
  induction h with
  | nil => exact Nat.zero_le _
  | @step log st now hmono hadm htr ih =>
    rw [List.length_append]
    simp only [List.length_cons, List.length_nil]
    omega

/-- C2: along every admission trace of a limiter class, every trailing
window of length `windowMs` contains at most `limit` admitted timestamps;
by construction of the trace relation, admission happens only when the
pruned window is under the limit and the admission timestamp is appended
exactly on admission. -/
theorem c2_sliding_window_bound (limit w : Nat) (log st : List Nat)
    (h : LimiterTrace limit w log st) (T : Nat) :
    (windowHits w T log).length ≤ limit := by
  induction h with
  | nil => simp [windowHits]
  | @step log st now hmono hadm htr ih =>
    by_cases hT : now ≤ T
    · have htr2 : LimiterTrace limit w (log ++ [now])
          (pruneWindow w now st ++ [now]) := .step now hmono hadm htr
      have hmono2 : ∀ t ∈ log ++ [now], t ≤ now := by
        intro t ht
        rcases List.mem_append.mp ht with h1 | h1
        · exact hmono t h1
        · simp only [List.mem_singleton] at h1
          omega
      have h1 : (windowHits w T (log ++ [now])).length ≤
          ((log ++ [now]).filter (fun t => decide (now ≤ t + w))).length := by
        apply filter_length_mono
        intro a _ hpa
        simp only [windowHits, Bool.and_eq_true, decide_eq_true_eq] at hpa
        simp only [decide_eq_true_eq]
        omega
      have h2 := (trace_window_sublist htr2 now hmono2).length_le
      have h3 := trace_state_length htr2
      unfold windowHits at h1 ⊢
      omega
    · have heq : windowHits w T (log ++ [now]) = windowHits w T log := by
        unfold windowHits
        rw [List.filter_append]
        have : decide (now ≤ T) = false := by
          simp only [decide_eq_false_iff_not]
          omega
        simp [this]
      rw [heq]
      exact ih

/-- Witness for C2: a concrete two-step trace with `limit = 1`,
`windowMs = 10`. -/
theorem c2_sliding_window_bound_witness :
    (windowHits 10 16 [5, 16]).length ≤ 1 := by
  have t1 : LimiterTrace 1 10 [5] [5] := by
    have h := @LimiterTrace.step 1 10 [] [] 5 (by simp) (by simp [pruneWindow]) .nil
    simpa [pruneWindow] using h
  have t2 : LimiterTrace 1 10 [5, 16] [16] := by
    have h := @LimiterTrace.step 1 10 [5] [5] 16 (by simp) (by simp [pruneWindow]) t1
    simpa [pruneWindow] using h
  exact c2_sliding_window_bound 1 10 [5, 16] [16] t2 16

/-! ## Claim C3 -/

theorem listStartsWith_comparable (e : List Char) : ∀ p q : List Char,
    listStartsWith e p = true → listStartsWith e q = true →
    p.length ≤ q.length → listStartsWith q p = true := by
  induction e with
  | nil =>
    intro p q hp hq _
    cases p with
    | nil => cases q <;> simp [listStartsWith]
    | cons a p2 => simp [listStartsWith] at hp
  | cons c e2 ih =>
    intro p q hp hq hlen
    cases p with
    | nil => cases q <;> simp [listStartsWith]
    | cons a p2 =>
      cases q with
      | nil => simp at hlen
      | cons b q2 =>
        simp only [listStartsWith, Bool.and_eq_true, beq_iff_eq] at hp hq ⊢
        obtain ⟨hca, hp2⟩ := hp
        obtain ⟨hcb, hq2⟩ := hq
        subst hca
        subst hcb
        simp only [List.length_cons, Nat.add_le_add_iff_right] at hlen
        exact ⟨rfl, ih p2 q2 hp2 hq2 hlen⟩

/-- Independence of a TTL table: no key is a prefix of another key. -/
def KeysIndep (table : List (String × Nat)) : Prop :=
  table.Pairwise (fun a b =>
    listStartsWith b.1.data a.1.data = false ∧
    listStartsWith a.1.data b.1.data = false)

theorem longestMatch_none_of_no_match (e : String) :
    ∀ table : List (String × Nat),
    (∀ qu ∈ table, listStartsWith e.data qu.1.data = false) →
    longestMatchTTL table e = none := by
  intro table
  induction table with
  | nil => intro _; rfl
  | cons qu rest ih =>
    intro h
    obtain ⟨q, u⟩ := qu
    have hres := ih (fun x hx => h x (List.mem_cons_of_mem _ hx))
    have hq := h (q, u) (List.mem_cons_self _ _)
    simp only [longestMatchTTL, hres, hq]
    simp

theorem firstMatch_eq_longestMatch (e : String) :
    ∀ table : List (String × Nat), KeysIndep table →
    defaultTTLFor table e =
      (match longestMatchTTL table e with
       | some qt => qt.2
       | none => 300) := by
  intro table
  induction table with
  | nil => intro _; rfl
  | cons pt rest ih =>
    intro hind
    obtain ⟨p, t⟩ := pt
    rw [KeysIndep, List.pairwise_cons] at hind
    obtain ⟨hhd, hrest⟩ := hind
    cases hm : listStartsWith e.data p.data with
    | true =>
      have hnomatch : ∀ qu ∈ rest, listStartsWith e.data qu.1.data = false := by
        intro qu hqu
        obtain ⟨hq1, hq2⟩ := hhd qu hqu
        cases hq : listStartsWith e.data qu.1.data with
        | false => rfl
        | true =>
          rcases Nat.le_total p.data.length qu.1.data.length with hle | hle
          · have := listStartsWith_comparable e.data p.data qu.1.data hm hq hle
            rw [this] at hq1
            exact absurd hq1 (by simp)
          · have := listStartsWith_comparable e.data qu.1.data p.data hq hm hle
            rw [this] at hq2
            exact absurd hq2 (by simp)
      have hnone : longestMatchTTL rest e = none :=
        longestMatch_none_of_no_match e rest hnomatch
      simp [defaultTTLFor, longestMatchTTL, hm, hnone]
    | false =>
      have hih := ih hrest
      cases hlm : longestMatchTTL rest e with
      | none => simp [defaultTTLFor, longestMatchTTL, hm, hlm, hlm ▸ hih]
      | some qt => simp [defaultTTLFor, longestMatchTTL, hm, hlm, hlm ▸ hih]

/-- C3: a `set` call stores the entry with TTL equal to the explicit
per-call TTL when one is given; otherwise with the value attached to the
longest table key that is a prefix of the endpoint, and 300 seconds when no
table key is a prefix of the endpoint. -/
theorem c3_set_ttl_defaulting (endpoint : String) (customTTL : Option Nat) :
    (∀ tc, customTTL = some tc → getTTL endpoint customTTL = tc) ∧
    (customTTL = none →
       getTTL endpoint customTTL =
         (match longestMatchTTL DEFAULT_TTLS endpoint with
          | some qt => qt.2
          | none => 300)) ∧
    (∀ (now : Nat) (paramsRepr orgId data : String) (w : FsWorld),
       w.failWrite (getCacheKey endpoint paramsRepr orgId ++ ".json") = false →
       ((FileCache.set true now endpoint paramsRepr orgId data customTTL w).2).files.lookup
           (getCacheKey endpoint paramsRepr orgId ++ ".json") =
         some { size := data.length,
                parsed := some { data := data, timestamp := now,
                                 ttl := getTTL endpoint customTTL,
                                 endpoint := endpoint } }) := by
  refine ⟨?_, ?_, ?_⟩
  · intro tc htc
    rw [htc]
    rfl
  · intro hnone
    rw [hnone]
    exact firstMatch_eq_longestMatch endpoint DEFAULT_TTLS
      (by unfold KeysIndep; decide)
  · intro now paramsRepr orgId data w hfail
    unfold FileCache.set runTotal writeM
    simp only [Bool.not_true, Bool.false_eq_true, if_false, hfail]
    simp [List.lookup]

/-- Witness for C3: a `/time_entries` endpoint with no explicit TTL stores
TTL 300, the longest (unique) matching prefix value. -/
theorem c3_set_ttl_defaulting_witness :
    (getTTL "/time_entries/42" none =
       (match longestMatchTTL DEFAULT_TTLS "/time_entries/42" with
        | some qt => qt.2
        | none => 300)) ∧
    longestMatchTTL DEFAULT_TTLS "/time_entries/42" = some ("/time_entries", 300) ∧
    ((FileCache.set true 1000 "/time_entries/42" "page=1" "org1" "payload" none
        { files := [] }).2).files.lookup
          (getCacheKey "/time_entries/42" "page=1" "org1" ++ ".json") =
      some { size := "payload".length,
             parsed := some { data := "payload", timestamp := 1000,
                              ttl := getTTL "/time_entries/42" none,
                              endpoint := "/time_entries/42" } } :=
  ⟨(c3_set_ttl_defaulting "/time_entries/42" none).2.1 rfl,
   by decide,
   (c3_set_ttl_defaulting "/time_entries/42" none).2.2 1000 "page=1" "org1"
     "payload" { files := [] } rfl⟩

/-! ## Claim C4 -/

theorem insertTs_perm (a : FileInfo) (l : List FileInfo) :
    (insertTs a l).Perm (a :: l) := by
  induction l with
  | nil => simp [insertTs]
  | cons b l2 ih =>
    simp only [insertTs]
    split
    · exact List.Perm.refl _
    · exact (ih.cons b).trans (List.Perm.swap a b l2)

theorem sortTs_perm (l : List FileInfo) : (sortTs l).Perm l := by
  induction l with
  | nil => simp [sortTs]
  | cons a l2 ih => exact (insertTs_perm a (sortTs l2)).trans (ih.cons a)

theorem insertTs_sorted {a : FileInfo} {l : List FileInfo}
    (h : l.Pairwise (fun x y => x.timestamp ≤ y.timestamp)) :
    (insertTs a l).Pairwise (fun x y => x.timestamp ≤ y.timestamp) := by
  induction l with
  | nil => simp [insertTs]
  | cons b l2 ih =>
    rw [List.pairwise_cons] at h
    obtain ⟨hb, hl2⟩ := h
    simp only [insertTs]
    split
    · rename_i hab
      rw [List.pairwise_cons]
      refine ⟨?_, List.pairwise_cons.mpr ⟨hb, hl2⟩⟩
      intro y hy
      rcases List.mem_cons.mp hy with h1 | h1
      · rw [h1]; exact hab
      · exact Nat.le_trans hab (hb y h1)
    · rename_i hab
      rw [List.pairwise_cons]
      refine ⟨?_, ih hl2⟩
      intro y hy
      have hmem := (insertTs_perm a l2).mem_iff.mp hy
      rcases List.mem_cons.mp hmem with h1 | h1
      · rw [h1]; omega
      · exact hb y h1

theorem sortTs_sorted (l : List FileInfo) :
    (sortTs l).Pairwise (fun x y => x.timestamp ≤ y.timestamp) := by
  induction l with
  | nil => simp [sortTs]
  | cons a l2 ih => exact insertTs_sorted ih

theorem sumSizes_perm {l1 l2 : List FileInfo} (h : l1.Perm l2) :
    sumSizes l1 = sumSizes l2 := by
  unfold sumSizes
  exact (h.map (fun x => x.size)).sum_eq

theorem evict_spec : ∀ (l : List FileInfo) (total : Nat), total = sumSizes l →
    ∃ k, k ≤ l.length ∧ evict l total = l.drop k ∧ withinLimits (l.drop k) ∧
      ∀ j < k, ¬ withinLimits (l.drop j) := by
  intro l
  induction l with
  | nil =>
    intro total _
    refine ⟨0, Nat.le_refl _, by simp [evict], by decide, by omega⟩
  | cons x rest ih =>
    intro total htot
    cases hg : overLimits total (x :: rest).length with
    | false =>
      have hev : evict (x :: rest) total = x :: rest := by
        simp only [evict, hg, Bool.false_eq_true, if_false]
      refine ⟨0, Nat.zero_le _, by simpa using hev, ?_, by omega⟩
      simp only [overLimits, Bool.or_eq_false_iff, decide_eq_false_iff_not,
        Nat.not_lt] at hg
      exact ⟨htot ▸ hg.1, hg.2⟩
    | true =>
      have htot2 : total - x.size = sumSizes rest := by
        simp only [sumSizes, List.map_cons, List.sum_cons] at htot
        simp only [sumSizes]
        omega
      have hev : evict (x :: rest) total = evict rest (total - x.size) := by
        simp only [evict, hg, if_true]
      obtain ⟨k, hk_le, hk_eq, hk_ok, hk_min⟩ := ih (total - x.size) htot2
      refine ⟨k + 1, by simpa using hk_le, ?_, ?_, ?_⟩
      · rw [hev, List.drop_succ_cons]
        exact hk_eq
      · simpa [List.drop_succ_cons] using hk_ok
      · intro j hj
        cases j with
        | zero =>
          simp only [overLimits, Bool.or_eq_true, decide_eq_true_eq,
            List.length_cons] at hg
          intro hw
          obtain ⟨hw1, hw2⟩ := hw
          simp only [List.drop_zero, List.length_cons] at hw1 hw2
          rw [htot] at hg
          rcases hg with hg | hg <;> omega
        | succ j2 =>
          have hmin := hk_min j2 (by omega)
          simpa [List.drop_succ_cons] using hmin

theorem mem_cleanupInfos {now : Nat} {files : List (String × RawQFile)}
    {x : FileInfo} (h : x ∈ cleanupInfos now files) :
    ∃ f ∈ files, ∃ e, f.2.parsed = some e ∧ entryExpired now e = false ∧
      x = { path := f.1, timestamp := e.timestamp, size := f.2.size } := by
  unfold cleanupInfos at h
  rw [List.mem_filterMap] at h
  obtain ⟨f, hf, hfx⟩ := h
  cases hp : f.2.parsed with
  | none => rw [hp] at hfx; simp at hfx
  | some e =>
    rw [hp] at hfx
    cases hex : entryExpired now e with
    | true => simp [hex] at hfx
    | false =>
      simp only [hex, Bool.false_eq_true, if_false, Option.some.injEq] at hfx
      exact ⟨f, hf, e, hp, hex, hfx.symm⟩

/-- C4: the cleanup sweep leaves a state within both ceilings; every
retained file is an unexpired, parseable file of the input snapshot (so all
individually expired entries are gone); every deleted unexpired file is no
newer than every retained file; and when the unexpired files exceed a
ceiling, the retained files are exactly a minimal-deletion suffix of the
timestamp-sorted unexpired files — oldest deleted first, stopping as soon as
both ceilings hold. -/
theorem c4_cleanup_eviction (now : Nat) (files : List (String × RawQFile)) :
    withinLimits (cleanup now files) ∧
    (∀ x ∈ cleanup now files, ∃ f ∈ files, ∃ e, f.2.parsed = some e ∧
       entryExpired now e = false ∧
       x = { path := f.1, timestamp := e.timestamp, size := f.2.size }) ∧
    (∀ x ∈ cleanupInfos now files, x ∉ cleanup now files →
       ∀ y ∈ cleanup now files, x.timestamp ≤ y.timestamp) ∧
    (overLimits (sumSizes (cleanupInfos now files))
        (cleanupInfos now files).length = true →
       ∃ k, cleanup now files = (sortTs (cleanupInfos now files)).drop k ∧
         withinLimits ((sortTs (cleanupInfos now files)).drop k) ∧
         ∀ j < k, ¬ withinLimits ((sortTs (cleanupInfos now files)).drop j)) := by
  cases hover : overLimits (sumSizes (cleanupInfos now files))
      (cleanupInfos now files).length with
  | false =>
    have hclean : cleanup now files = cleanupInfos now files := by
      unfold cleanup
      simp [hover]
    refine ⟨?_, ?_, ?_, ?_⟩
    · rw [hclean]
      simp only [overLimits, Bool.or_eq_false_iff, decide_eq_false_iff_not,
        Nat.not_lt] at hover
      exact ⟨hover.1, hover.2⟩
    · intro x hx
      rw [hclean] at hx
      exact mem_cleanupInfos hx
    · intro x hx hnot
      rw [hclean] at hnot
      exact absurd hx hnot
    · intro hcontr
      exact absurd hcontr (by simp)
  | true =>
    have htot : sumSizes (cleanupInfos now files) =
        sumSizes (sortTs (cleanupInfos now files)) :=
      (sumSizes_perm (sortTs_perm (cleanupInfos now files))).symm
    obtain ⟨k, hk_le, hk_eq, hk_ok, hk_min⟩ :=
      evict_spec (sortTs (cleanupInfos now files))
        (sumSizes (cleanupInfos now files)) htot
    have hclean : cleanup now files =
        (sortTs (cleanupInfos now files)).drop k := by
      unfold cleanup
      simp [hover, hk_eq]
    refine ⟨?_, ?_, ?_, ?_⟩
    · rw [hclean]
      exact hk_ok
    · intro x hx
      rw [hclean] at hx
      have hx2 : x ∈ sortTs (cleanupInfos now files) :=
        (List.drop_sublist k _).subset hx
      exact mem_cleanupInfos ((sortTs_perm _).mem_iff.mp hx2)
    · intro x hx hnot y hy
      rw [hclean] at hnot hy
      have hxs : x ∈ sortTs (cleanupInfos now files) :=
        (sortTs_perm _).mem_iff.mpr hx
      have hsplit := List.take_append_drop k (sortTs (cleanupInfos now files))
      have hxtake : x ∈ (sortTs (cleanupInfos now files)).take k := by
        rw [← hsplit] at hxs
        rcases List.mem_append.mp hxs with h1 | h1
        · exact h1
        · exact absurd h1 hnot
      have hsorted := sortTs_sorted (cleanupInfos now files)
      rw [← hsplit, List.pairwise_append] at hsorted
      exact hsorted.2.2 x hxtake y hy
    · intro _
      exact ⟨k, hclean, hk_ok, hk_min⟩

/-- Witness for C4: two 30MB unexpired files and one expired file; the sweep
deletes the expired file, then the older 30MB file, retaining only the
newest. -/
theorem c4_cleanup_eviction_witness :
    overLimits (sumSizes (cleanupInfos 10000000 c4Files))
      (cleanupInfos 10000000 c4Files).length = true ∧
    (∃ k, cleanup 10000000 c4Files = (sortTs (cleanupInfos 10000000 c4Files)).drop k ∧
        withinLimits ((sortTs (cleanupInfos 10000000 c4Files)).drop k) ∧
        ∀ j < k, ¬ withinLimits ((sortTs (cleanupInfos 10000000 c4Files)).drop j)) ∧
    cleanup 10000000 c4Files =
      [{ path := "b.json", timestamp := 9500000, size := 30000000 }] :=
  ⟨by decide,
   (c4_cleanup_eviction 10000000 c4Files).2.2.2 (by decide),
   by decide⟩


/-! ## Claim C8 -/

/-- C8: no TTL-cache operation and no resolver cache access ever propagates
an I/O or parse failure: a failed or unparseable read degrades `get` to a
miss with the world untouched, a failed write makes `set` a silent no-op, a
failed directory listing makes `invalidate`/`clear` return normally and
`stats` report zeros, a failing sqlite read degrades `getCachedResolve` to a
miss, and a failing sqlite write makes `setCachedResolve` return normally
with no write performed. -/
theorem c8_cache_errors_swallowed :
    (∀ (enabled : Bool) (now : Nat) (endpoint paramsRepr orgId : String)
        (w : FsWorld),
       w.failRead (getCacheKey endpoint paramsRepr orgId ++ ".json") = true →
       FileCache.get enabled now endpoint paramsRepr orgId w = (none, w)) ∧
    (∀ (enabled : Bool) (now : Nat) (endpoint paramsRepr orgId : String)
        (w : FsWorld) (sz : Nat),
       w.failRead (getCacheKey endpoint paramsRepr orgId ++ ".json") = false →
       w.files.lookup (getCacheKey endpoint paramsRepr orgId ++ ".json") =
         some { size := sz, parsed := none } →
       FileCache.get enabled now endpoint paramsRepr orgId w = (none, w)) ∧
    (∀ (enabled : Bool) (now : Nat) (endpoint paramsRepr orgId data : String)
        (customTTL : Option Nat) (w : FsWorld),
       w.failWrite (getCacheKey endpoint paramsRepr orgId ++ ".json") = true →
       FileCache.set enabled now endpoint paramsRepr orgId data customTTL w =
         ((), w)) ∧
    (∀ (enabled : Bool) (pat : Option String) (w : FsWorld),
       w.failReaddir = true →
       FileCache.invalidate enabled pat w = ((), w)) ∧
    (∀ (enabled : Bool) (w : FsWorld), w.failReaddir = true →
       FileCache.clear enabled w = ((), w)) ∧
    (∀ (enabled : Bool) (now : Nat) (w : FsWorld), w.failReaddir = true →
       FileCache.stats enabled now w =
         ({ entries := 0, size := 0, oldestAge := 0 }, w)) ∧
    (∀ (sqGet : SqGet) (orgId : String) (t : RType) (query : String),
       sqGet (getResolveCacheKey orgId t query) = .error () →
       getCachedResolve sqGet orgId t query = none) ∧
    (∀ (sqSet : SqSet) (orgId : String) (r : ResolveResult),
       sqSet (getResolveCacheKey orgId r.rtype r.query) r
           (if r.exact then CACHE_TTL_exact else CACHE_TTL_fuzzy) = .error () →
       setCachedResolve sqSet orgId r = none) := by
  refine ⟨?_, ?_, ?_, ?_, ?_, ?_, ?_, ?_⟩
  · intro enabled now endpoint paramsRepr orgId w h
    cases enabled with
    | false => simp [FileCache.get]
    | true =>
      unfold FileCache.get runTotal
      simp only [instMonadFsM, existsM, readFileM, tryCatch, unlinkM, bind,
        pure, Bool.not_true, Bool.false_eq_true, if_false]
      cases hl : w.files.lookup (getCacheKey endpoint paramsRepr orgId ++ ".json") <;>
        simp [hl, h]
  · intro enabled now endpoint paramsRepr orgId w sz h1 h2
    cases enabled with
    | false => simp [FileCache.get]
    | true =>
      unfold FileCache.get runTotal
      simp only [instMonadFsM, existsM, readFileM, tryCatch, unlinkM, bind,
        pure, Bool.not_true, Bool.false_eq_true, if_false]
      simp [h1, h2]
  · intro enabled now endpoint paramsRepr orgId data customTTL w h
    cases enabled with
    | false => simp [FileCache.set]
    | true =>
      unfold FileCache.set runTotal writeM
      simp [h]
  · intro enabled pat w h
    cases enabled with
    | false => simp [FileCache.invalidate]
    | true =>
      unfold FileCache.invalidate runTotal readdirM
      simp only [instMonadFsM, bind, pure, Bool.not_true, Bool.false_eq_true,
        if_false]
      simp [h]
  · intro enabled w h
    cases enabled with
    | false => simp [FileCache.clear, FileCache.invalidate]
    | true =>
      unfold FileCache.clear FileCache.invalidate runTotal readdirM
      simp only [instMonadFsM, bind, pure, Bool.not_true, Bool.false_eq_true,
        if_false]
      simp [h]
  · intro enabled now w h
    cases enabled with
    | false => simp [FileCache.stats]
    | true =>
      cases hd : w.cacheDirExists with
      | false => simp [FileCache.stats, hd]
      | true =>
        unfold FileCache.stats runTotal readdirM
        simp only [instMonadFsM, bind, pure, Bool.not_true, Bool.false_eq_true,
          if_false]
        simp [h, hd]
  · intro sqGet orgId t query h
    simp [getCachedResolve, h]
  · intro sqSet orgId r h
    simp only [setCachedResolve]
    rw [h]

/-- Witness for C8: the all-failing world degrades every operation. -/
theorem c8_cache_errors_swallowed_witness :
    FileCache.get true 5 "/projects" "page=1" "org1" failWorld =
      (none, failWorld) ∧
    FileCache.set true 5 "/projects" "page=1" "org1" "d" none failWorld =
      ((), failWorld) ∧
    FileCache.invalidate true (some "/projects") failWorld = ((), failWorld) ∧
    FileCache.clear true failWorld = ((), failWorld) ∧
    FileCache.stats true 5 failWorld =
      ({ entries := 0, size := 0, oldestAge := 0 }, failWorld) ∧
    getCachedResolve sqGetFail "org1" .person "ada" = none ∧
    setCachedResolve sqSetFail "org1"
      { id := "1", rtype := .person, label := "A", query := "q", exact := true } =
      none :=
  ⟨c8_cache_errors_swallowed.1 true 5 "/projects" "page=1" "org1" failWorld rfl,
   (c8_cache_errors_swallowed.2.2.1) true 5 "/projects" "page=1" "org1" "d" none
     failWorld rfl,
   (c8_cache_errors_swallowed.2.2.2.1) true (some "/projects") failWorld rfl,
   (c8_cache_errors_swallowed.2.2.2.2.1) true failWorld rfl,
   (c8_cache_errors_swallowed.2.2.2.2.2.1) true 5 failWorld rfl,
   (c8_cache_errors_swallowed.2.2.2.2.2.2.1) sqGetFail "org1" .person "ada" rfl,
   (c8_cache_errors_swallowed.2.2.2.2.2.2.2) sqSetFail "org1"
     { id := "1", rtype := .person, label := "A", query := "q", exact := true }
     rfl⟩

end ProductiveCli
